import Mathlib

/-!
Verification of the Bluesky→Discord feed relay (`app/main.py`) against its
natural-language specification. The Python source is shallowly embedded:
timestamps are integers (seconds), the watermark store is a function from
handle to optional timestamp, remote collaborators (Discord delivery, the
Bluesky list/feed endpoints, the JSON parser) are parameters whose outcomes
are explicit `Except`/`Option` values, and exception propagation is modelled
by the explicit abort/skip structure of the control flow.
-/

namespace BskyFeed

/-- A Bluesky post as the scheduler sees it: its URI and its `indexed_at`
timestamp (modelled as an integer number of seconds; the Python code parses
the ISO-8601 string into a `datetime`, compared exactly). -/
structure Post where
  uri : String
  indexed_at : Int
deriving DecidableEq

/-! ## Rate limiter (`RateLimiter`, main.py lines 76–90) -/

/-- State of `RateLimiter`: the configured budget `calls_per_minute`
(default 30 in the source) and the list `calls` of recorded call
timestamps. -/
structure RateLimiter where
  calls_per_minute : Nat
  calls : List Int
deriving DecidableEq

/-- Embedding of `RateLimiter.acquire` (main.py lines 81–90).  `now` is the
time captured at entry (`datetime.now`).  The call list is pruned to
timestamps strictly less than 60 seconds old; if the pruned list has at
least `calls_per_minute` entries the task sleeps `60 - (now - min calls)`
seconds (in Python, `(now - min(self.calls)).seconds`, which for an
in-window difference is exactly the integer difference); afterwards `now`
is appended unconditionally.  Returns the new state and the sleep duration;
`none` models the `ValueError` Python's `min([])` would raise, reachable
only when the budget is zero. -/
def RateLimiter.acquire (rl : RateLimiter) (now : Int) : Option (RateLimiter × Int) :=
  let pruned := rl.calls.filter (fun t => now - t < 60)
  if pruned.length ≥ rl.calls_per_minute then
    match pruned.min? with
    | none => none
    | some oldest =>
      some ({ rl with calls := pruned ++ [now] }, 60 - (now - oldest))
  else
    some ({ rl with calls := pruned ++ [now] }, 0)

/-! ## Retry policy (tenacity decorator, main.py lines 120 and 148) -/

/-- Tenacity's `wait_exponential(multiplier, min, max)` wait before the next
attempt, as a function of the number of attempts already made: the
exponential `multiplier * 2 ^ attempt` clamped into `[minW, maxW]`. -/
def waitExponential (multiplier minW maxW attempt : Nat) : Nat :=
  max minW (min maxW (multiplier * 2 ^ attempt))

/-- The wait schedule both decorated calls configure:
`wait_exponential(multiplier=1, min=4, max=10)`. -/
def tenacityWait (attempt : Nat) : Nat :=
  waitExponential 1 4 10 attempt

/-- Tenacity's retry loop: run `body` for attempt `attempt`; on an exception
(`Except.error`) with remaining budget, record the wait and try again.
Returns the final outcome, the number of the attempt that produced it, and
the list of waits slept between attempts. -/
def retryLoop {α : Type} (wait : Nat → Nat) (body : Nat → Except Unit α) :
    Nat → Nat → Except Unit α × Nat × List Nat
  | attempt, 0 => (Except.error (), attempt, [])
  | attempt, fuel + 1 =>
    match body attempt with
    | Except.ok a => (Except.ok a, attempt, [])
    | Except.error e =>
      if fuel = 0 then (Except.error e, attempt, [])
      else
        let r := retryLoop wait body (attempt + 1) fuel
        (r.1, r.2.1, wait attempt :: r.2.2)

/-- The decorator `@retry(stop=stop_after_attempt(3),
wait=wait_exponential(multiplier=1, min=4, max=10))` shared by
`get_list_members` and `fetch_posts`: at most 3 attempts with the
`tenacityWait` schedule. -/
def runRetry {α : Type} (body : Nat → Except Unit α) : Except Unit α × Nat × List Nat :=
  retryLoop tenacityWait body 1 3

/-- One attempt of the body of `get_list_members` (main.py lines 121–146).
The remote call `bluesky.app.bsky.graph.get_list` is a parameter: an
exception (`Except.error`), a falsy/empty response (`some none` /
an empty item list), or a list of items each carrying an optional handle
(the `hasattr(item.subject, 'handle')` check).  The internal
`try/except Exception` turns every remote exception into `return []`. -/
def get_list_members_attempt (remote : Except Unit (Option (List (Option String)))) :
    Except Unit (List String) :=
  match remote with
  | Except.error _ => Except.ok []
  | Except.ok none => Except.ok []
  | Except.ok (some items) =>
    if items.isEmpty then Except.ok []
    else Except.ok (items.filterMap id)

/-- Embedding of `get_list_members` (main.py lines 120–146): the attempt body
wrapped in the retry decorator.  `remote n` is the outcome of the `n`-th
remote call. -/
def get_list_members (remote : Nat → Except Unit (Option (List (Option String)))) :
    Except Unit (List String) × Nat × List Nat :=
  runRetry (fun n => get_list_members_attempt (remote n))

/-- Embedding of `fetch_posts` (main.py lines 148–155): the remote call
`bluesky.get_author_feed` under the same retry decorator, with no internal
exception handler — the result is the author feed (newest first), or the
propagated exception after retries are exhausted. -/
def fetch_posts (remote : Nat → Except Unit (List Post)) :
    Except Unit (List Post) × Nat × List Nat :=
  runRetry remote

/-! ## Watermark persistence (`load_history`, main.py lines 94–104) -/

/-- What the history file read can encounter: the file is missing
(`Path(...).exists()` false), reading it raises, or it yields a string
that the JSON parser then accepts or rejects. -/
inductive HistoryFile where
  | missing
  | unreadable
  | content (s : String)

/-- The empty watermark mapping (`{}`). -/
def emptyHistory : String → Option Int := fun _ => none

/-- Embedding of `load_history` (main.py lines 94–104): if the file exists
its content is read and parsed, any exception (unreadable file, invalid
JSON — `parse s = none`) is caught and the empty mapping returned; a
missing file returns the empty mapping directly.  `parse` stands for
`json.loads` restricted to the watermark shape. -/
def load_history (parse : String → Option (String → Option Int)) :
    HistoryFile → (String → Option Int)
  | HistoryFile.missing => emptyHistory
  | HistoryFile.unreadable => emptyHistory
  | HistoryFile.content s =>
    match parse s with
    | some h => h
    | none => emptyHistory

/-! ## Per-handle sweep body (`check_subscriptions_updates`, main.py 255–288) -/

/-- The age test on main.py line 269: `post_age := current_time - post_time
> POST_AGE_THRESHOLD` assigns the *boolean* comparison (the walrus binds
below `>`), so the post is skipped exactly when its age strictly exceeds
the threshold. -/
def isTooOld (current_time threshold t : Int) : Bool :=
  decide (current_time - t > threshold)

/-- The dedup test on main.py line 272: `newest_time and post_time <=
newest_time`.  A `datetime` is always truthy, so with a watermark present
the post is skipped exactly when `post_time ≤ newest_time`; with no
watermark nothing is skipped. -/
def dedupSkip (newest : Option Int) (t : Int) : Bool :=
  match newest with
  | none => false
  | some w => decide (t ≤ w)

/-- The watermark bump on main.py lines 275–276: `if newest_time is None or
post_time > newest_time: newest_time = post_time`. -/
def bumpNewest (newest : Option Int) (t : Int) : Option Int :=
  match newest with
  | none => some t
  | some w => if t > w then some t else some w

/-- Outcome of the post loop for one handle: either the loop ran to the end
(the sent posts in order, and the final `newest_time`, committed afterwards
when not `none`), or a delivery raised and the whole per-handle body was
aborted (the posts sent before the failure; no commit). -/
inductive LoopResult where
  | ok (sent : List Post) (newest : Option Int)
  | aborted (sent : List Post)
deriving DecidableEq

/-- The loop `for post in reversed(response.feed)` (main.py lines 266–281),
already given the reversed (oldest-first) post list.  `send p = false`
models `channel.send` raising for `p`, which aborts the loop — and with it
the per-handle body, including the watermark commit. -/
def processLoop (current_time threshold : Int) (send : Post → Bool) :
    List Post → Option Int → List Post → LoopResult
  | [], newest, sent => LoopResult.ok sent newest
  | p :: rest, newest, sent =>
    if isTooOld current_time threshold p.indexed_at then
      processLoop current_time threshold send rest newest sent
    else if dedupSkip newest p.indexed_at then
      processLoop current_time threshold send rest newest sent
    else
      let newest' := bumpNewest newest p.indexed_at
      if send p then
        processLoop current_time threshold send rest newest' (sent ++ [p])
      else
        LoopResult.aborted sent

/-- The per-handle body of `check_subscriptions_updates` (main.py lines
256–285): a failed fetch (the exception from `fetch_posts` after retries)
is caught by the per-handle `except`, an empty feed is skipped by
`if not response or not response.feed: continue`; otherwise the post loop
runs on the reversed feed, and on normal completion the final `newest_time`
is committed (`if newest_time:` — a `datetime` is always truthy, so any
non-`none` value commits).  Returns the posts forwarded, in order, and the
committed watermark value (`none` = no commit this sweep). -/
def handleRun (current_time threshold : Int) (send : Post → Bool)
    (fetched : Except Unit (List Post)) (wm : Option Int) : List Post × Option Int :=
  match fetched with
  | Except.error _ => ([], none)
  | Except.ok feed =>
    if feed.isEmpty then ([], none)
    else
      match processLoop current_time threshold send feed.reverse wm [] with
      | LoopResult.ok sent newest => (sent, newest)
      | LoopResult.aborted sent => (sent, none)

/-- Committing a watermark value into the store
(`last_processed_times[handle] = newest_time.isoformat()`):
`none` leaves the store untouched. -/
def updateWM (wm : String → Option Int) (h : String) (commit : Option Int) :
    String → Option Int :=
  match commit with
  | none => wm
  | some t => fun k => if k = h then some t else wm k

/-- One sweep over the resolved handles (main.py lines 255–288): each handle
is processed against its own watermark, its commit (if any) is written
immediately, and the loop continues with the next handle regardless of the
outcome.  Returns the forwarded `(handle, post)` pairs in order and the
final watermark store. -/
def sweepRun (current_time threshold : Int) (send : String → Post → Bool)
    (fetch : String → Except Unit (List Post)) :
    List String → (String → Option Int) → List (String × Post) × (String → Option Int)
  | [], wm => ([], wm)
  | h :: rest, wm =>
    let r := handleRun current_time threshold (send h) (fetch h) (wm h)
    let wm2 := updateWM wm h r.2
    let tail := sweepRun current_time threshold send fetch rest wm2
    (r.1.map (fun p => (h, p)) ++ tail.1, tail.2)

/-! ## Order on optional watermarks -/

/-- Comparison of watermark entries: `none` (absent) is below everything;
two present watermarks compare by timestamp.  `wmLE a b` says the entry
`b` is at least as advanced as `a`. -/
def wmLE : Option Int → Option Int → Bool
  | none, _ => true
  | some _, none => false
  | some a, some b => decide (a ≤ b)

/-- Strictly-below test for an optional watermark against a timestamp:
true when the watermark is absent or strictly earlier than `t`. -/
def wmBelow : Option Int → Int → Bool
  | none, _ => true
  | some w, t => decide (w < t)

/-- Committing `c` over an existing entry `old`: the committed value when a
commit happened, the old entry otherwise.  This is the value `updateWM`
leaves at the committed handle's own key. -/
def commitOr (old c : Option Int) : Option Int :=
  match c with
  | none => old
  | some t => some t

/-! ## Helper lemmas -/

lemma isTooOld_eq_false {ct thr t : Int} (h : ct - t ≤ thr) :
    isTooOld ct thr t = false := by
  simp only [isTooOld, decide_eq_false_iff_not]
  omega

lemma isTooOld_eq_true {ct thr t : Int} (h : thr < ct - t) :
    isTooOld ct thr t = true := by
  simp only [isTooOld, decide_eq_true_eq]
  omega

lemma dedupSkip_of_below {wm : Option Int} {t : Int} (h : wmBelow wm t = true) :
    dedupSkip wm t = false := by
  cases wm with
  | none => rfl
  | some w =>
    simp only [wmBelow, decide_eq_true_eq] at h
    simp only [dedupSkip, decide_eq_false_iff_not]
    omega

lemma bumpNewest_of_below {wm : Option Int} {t : Int} (h : wmBelow wm t = true) :
    bumpNewest wm t = some t := by
  cases wm with
  | none => rfl
  | some w =>
    simp only [wmBelow, decide_eq_true_eq] at h
    simp only [bumpNewest, if_pos h]

lemma wmLE_refl (a : Option Int) : wmLE a a = true := by
  cases a with
  | none => rfl
  | some w => simp [wmLE]

lemma wmLE_trans {a b c : Option Int} (h1 : wmLE a b = true) (h2 : wmLE b c = true) :
    wmLE a c = true := by
  cases a <;> cases b <;> cases c <;> (simp_all [wmLE]; try omega)

lemma wmLE_bump (a : Option Int) (t : Int) : wmLE a (bumpNewest a t) = true := by
  cases a with
  | none => rfl
  | some w =>
    by_cases h : t > w
    · simp only [bumpNewest, if_pos h, wmLE, decide_eq_true_eq]
      omega
    · simp only [bumpNewest, if_neg h]
      exact wmLE_refl _

lemma handleRun_error (ct thr : Int) (send : Post → Bool) (wm : Option Int) :
    handleRun ct thr send (Except.error ()) wm = ([], none) := rfl

lemma updateWM_none (wm : String → Option Int) (h : String) :
    updateWM wm h none = wm := rfl

lemma updateWM_self (wm : String → Option Int) (h : String) (c : Option Int) :
    updateWM wm h c h = commitOr (wm h) c := by
  cases c with
  | none => rfl
  | some t => simp [updateWM, commitOr]

lemma updateWM_ne {k h : String} (wm : String → Option Int) (c : Option Int)
    (hne : k ≠ h) : updateWM wm h c k = wm k := by
  cases c with
  | none => rfl
  | some t => simp [updateWM, hne]

lemma sweepRun_nil (ct thr : Int) (send : String → Post → Bool)
    (fetch : String → Except Unit (List Post)) (wm : String → Option Int) :
    sweepRun ct thr send fetch [] wm = ([], wm) := rfl

lemma sweepRun_cons (ct thr : Int) (send : String → Post → Bool)
    (fetch : String → Except Unit (List Post)) (h : String) (rest : List String)
    (wm : String → Option Int) :
    sweepRun ct thr send fetch (h :: rest) wm =
      ((handleRun ct thr (send h) (fetch h) (wm h)).1.map (fun p => (h, p)) ++
          (sweepRun ct thr send fetch rest
            (updateWM wm h (handleRun ct thr (send h) (fetch h) (wm h)).2)).1,
        (sweepRun ct thr send fetch rest
          (updateWM wm h (handleRun ct thr (send h) (fetch h) (wm h)).2)).2) := rfl

/-- Along one handle's post loop, the running `newest_time` never goes
backwards: a completed loop ends at least as high as it started. -/
lemma processLoop_newest_mono (ct thr : Int) (send : Post → Bool) :
    ∀ (posts : List Post) (newest : Option Int) (sent s : List Post) (n : Option Int),
      processLoop ct thr send posts newest sent = LoopResult.ok s n →
      wmLE newest n = true := by
  intro posts
  induction posts with
  | nil =>
    intro newest sent s n h
    simp only [processLoop, LoopResult.ok.injEq] at h
    rw [← h.2]
    exact wmLE_refl _
  | cons p rest ih =>
    intro newest sent s n h
    rw [processLoop] at h
    split at h
    · exact ih _ _ _ _ h
    · split at h
      · exact ih _ _ _ _ h
      · split at h
        · exact wmLE_trans (wmLE_bump newest p.indexed_at) (ih _ _ _ _ h)
        · exact absurd h (by simp)

/-- A committed watermark value is at least the watermark the handle's
processing started from. -/
lemma handleRun_commit_mono {ct thr : Int} {send : Post → Bool}
    {fetched : Except Unit (List Post)} {wm : Option Int} {t : Int}
    (h : (handleRun ct thr send fetched wm).2 = some t) :
    wmLE wm (some t) = true := by
  cases fetched with
  | error e => simp [handleRun] at h
  | ok feed =>
    rw [handleRun] at h
    split at h
    · simp at h
    · cases hp : processLoop ct thr send feed.reverse wm [] with
      | ok s n =>
        rw [hp] at h
        simp only at h
        rw [← h]
        exact processLoop_newest_mono ct thr send _ _ _ _ _ hp
      | aborted s =>
        rw [hp] at h
        simp at h

/-- The watermark store is pointwise non-decreasing across one sweep. -/
lemma sweepRun_wm_mono (ct thr : Int) (send : String → Post → Bool)
    (fetch : String → Except Unit (List Post)) :
    ∀ (hs : List String) (wm : String → Option Int) (h : String),
      wmLE (wm h) ((sweepRun ct thr send fetch hs wm).2 h) = true := by
  intro hs
  induction hs with
  | nil => intro wm h; exact wmLE_refl _
  | cons h0 rest ih =>
    intro wm h
    rw [sweepRun_cons]
    refine wmLE_trans ?_ (ih _ h)
    cases hc : (handleRun ct thr (send h0) (fetch h0) (wm h0)).2 with
    | none => rw [updateWM_none]; exact wmLE_refl _
    | some t =>
      by_cases he : h = h0
      · subst he
        rw [updateWM_self, commitOr]
        exact handleRun_commit_mono hc
      · rw [updateWM_ne _ _ he]
        exact wmLE_refl _

/-! ## Claim C3 -/

/-- Claim C3: for every handle and every sweep, the stored watermark for
that handle is monotonically non-decreasing — no sweep, regardless of the
order or ages of the posts in any fetched feed, replaces a watermark with a
strictly earlier timestamp (`wmLE` compares the entry before the sweep with
the entry after it).  A sequence of sweeps follows by chaining this
per-sweep fact through `wmLE_trans`. -/
theorem c3_watermark_monotone (current_time threshold : Int)
    (send : String → Post → Bool) (fetch : String → Except Unit (List Post))
    (handles : List String) (wm : String → Option Int) (h : String) :
    wmLE (wm h) ((sweepRun current_time threshold send fetch handles wm).2 h) = true :=
  sweepRun_wm_mono current_time threshold send fetch handles wm h

/-- Claim C3, evaluated on a concrete sweep: the watermark for "a" starts at
5 and ends at least as high. -/
theorem c3_witness :
    wmLE ((fun k => if k = "a" then some 5 else none) "a")
      ((sweepRun 100 1000 (fun _ _ => true)
          (fun _ => Except.ok [Post.mk "p" 50]) ["a"]
          (fun k => if k = "a" then some 5 else none)).2 "a") = true :=
  c3_watermark_monotone 100 1000 (fun _ _ => true)
    (fun _ => Except.ok [Post.mk "p" 50]) ["a"]
    (fun k => if k = "a" then some 5 else none) "a"

/-! ## Claim C4 -/

/-- With a watermark at or above every post of the feed, every post is
skipped by the age or dedup test and the loop ends where it started. -/
lemma processLoop_stale (ct thr : Int) (send : Post → Bool) (W : Int) :
    ∀ (posts : List Post) (sent : List Post),
      (∀ p ∈ posts, p.indexed_at ≤ W) →
      processLoop ct thr send posts (some W) sent = LoopResult.ok sent (some W) := by
  intro posts
  induction posts with
  | nil => intro sent _; rfl
  | cons p rest ih =>
    intro sent hall
    have hp : p.indexed_at ≤ W := hall p (List.mem_cons_self p rest)
    have hrest : ∀ q ∈ rest, q.indexed_at ≤ W := fun q hq => hall q (List.mem_cons_of_mem p hq)
    rw [processLoop]
    by_cases hOld : isTooOld ct thr p.indexed_at = true
    · rw [if_pos hOld]
      exact ih sent hrest
    · rw [if_neg hOld]
      have hd : dedupSkip (some W) p.indexed_at = true := by
        simp only [dedupSkip, decide_eq_true_eq]
        exact hp
      rw [if_pos hd]
      exact ih sent hrest

/-- Claim C4: the dedup filter is idempotent — for a feed whose posts all
have `indexed_at` at or below the handle's watermark `W`, processing the
feed forwards zero posts; and the dedup test is exactly
`indexed_at ≤ W` skips (strict `>` qualifies) with a present watermark, and
skips nothing when the watermark is absent. -/
theorem c4_dedup_idempotent (current_time threshold : Int) (send : Post → Bool)
    (feed : List Post) (W t : Int)
    (hall : feed.all (fun p => decide (p.indexed_at ≤ W)) = true) :
    (handleRun current_time threshold send (Except.ok feed) (some W)).1 = [] ∧
    dedupSkip (some W) t = decide (t ≤ W) ∧
    dedupSkip none t = false := by
  refine ⟨?_, rfl, rfl⟩
  have hall' : ∀ p ∈ feed, p.indexed_at ≤ W := by
    intro p hp
    have := List.all_eq_true.mp hall p hp
    simpa using this
  cases feed with
  | nil => rfl
  | cons q qs =>
    rw [handleRun]
    rw [if_neg (by simp)]
    rw [processLoop_stale current_time threshold send W _ []
      (fun p hp => hall' p (List.mem_reverse.mp hp))]

/-- Claim C4, evaluated: watermark 10 at or above both posts of the feed,
zero posts forwarded. -/
theorem c4_witness :
    (handleRun 100 1000 (fun _ => true)
        (Except.ok [Post.mk "q" 10, Post.mk "p" 5]) (some 10)).1 = [] ∧
    dedupSkip (some 10) 7 = decide ((7 : Int) ≤ 10) ∧
    dedupSkip none 7 = false :=
  c4_dedup_idempotent 100 1000 (fun _ => true)
    [Post.mk "q" 10, Post.mk "p" 5] 10 7 (by decide)

/-! ## Claim C5 -/

/-- Claim C5: the age boundary is inclusive.  A post whose age
`current_time - indexed_at` is exactly the threshold is not skipped by the
age test and (fresh watermark, delivery succeeding) is forwarded; a post
whose age strictly exceeds the threshold is skipped and nothing is
forwarded or committed. -/
theorem c5_age_boundary (current_time threshold : Int) (p q : Post)
    (send : Post → Bool) (hsend : send p = true)
    (hp : current_time - p.indexed_at = threshold)
    (hq : threshold < current_time - q.indexed_at) :
    isTooOld current_time threshold p.indexed_at = false ∧
    handleRun current_time threshold send (Except.ok [p]) none =
      ([p], some p.indexed_at) ∧
    isTooOld current_time threshold q.indexed_at = true ∧
    handleRun current_time threshold send (Except.ok [q]) none = ([], none) := by
  have h1 : isTooOld current_time threshold p.indexed_at = false :=
    isTooOld_eq_false (le_of_eq hp)
  have h2 : isTooOld current_time threshold q.indexed_at = true :=
    isTooOld_eq_true hq
  refine ⟨h1, ?_, h2, ?_⟩
  · simp [handleRun, processLoop, h1, dedupSkip, bumpNewest, hsend]
  · simp [handleRun, processLoop, h2]

/-- Claim C5, evaluated: at `current_time = 100`, `threshold = 60`, the post
at 40 (age exactly 60) is forwarded; the post at 10 (age 90) is not. -/
theorem c5_witness :
    isTooOld 100 60 (Post.mk "p" 40).indexed_at = false ∧
    handleRun 100 60 (fun _ => true) (Except.ok [Post.mk "p" 40]) none =
      ([Post.mk "p" 40], some (Post.mk "p" 40).indexed_at) ∧
    isTooOld 100 60 (Post.mk "q" 10).indexed_at = true ∧
    handleRun 100 60 (fun _ => true) (Except.ok [Post.mk "q" 10]) none = ([], none) :=
  c5_age_boundary 100 60 (Post.mk "p" 40) (Post.mk "q" 10) (fun _ => true)
    rfl (by decide) (by decide)

/-! ## Claim C6 -/

/-- Claim C6: rate-limiter admission.  With the rolling window holding
exactly the budget `calls_per_minute ≥ 1` of in-window calls, whose oldest
entry is `oldest`, `acquire` suspends for `60 - (now - oldest)` seconds —
a positive duration of at most 60 seconds — and then records the call
unconditionally (the new state appends `now` to the pruned window); the
call is neither dropped nor errored (`some`, never `none`). -/
theorem c6_rate_limit_admission (rl : RateLimiter) (now oldest : Int)
    (_hB : 1 ≤ rl.calls_per_minute)
    (hfull : (rl.calls.filter (fun t => now - t < 60)).length = rl.calls_per_minute)
    (hmin : (rl.calls.filter (fun t => now - t < 60)).min? = some oldest)
    (hpast : rl.calls.all (fun t => decide (t ≤ now)) = true) :
    rl.acquire now =
      some ({ rl with calls := rl.calls.filter (fun t => now - t < 60) ++ [now] },
        60 - (now - oldest)) ∧
    0 < 60 - (now - oldest) ∧ 60 - (now - oldest) ≤ 60 := by
  have hmem : oldest ∈ rl.calls.filter (fun t => now - t < 60) :=
    List.min?_mem min_choice hmin
  have hwin : now - oldest < 60 := by
    have := (List.mem_filter.mp hmem).2
    simpa using this
  have hold : oldest ≤ now := by
    have hm := (List.mem_filter.mp hmem).1
    have := List.all_eq_true.mp hpast oldest hm
    simpa using this
  refine ⟨?_, by omega, by omega⟩
  have hge : (rl.calls.filter (fun t => now - t < 60)).length ≥ rl.calls_per_minute :=
    le_of_eq hfull.symm
  simp only [RateLimiter.acquire]
  rw [if_pos hge, hmin]

/-- Claim C6, evaluated: budget 2, window `[0, 10]`, a third call at `now =
30` waits `60 - 30 = 30` seconds and is admitted with the window becoming
`[0, 10, 30]`. -/
theorem c6_witness :
    RateLimiter.acquire (RateLimiter.mk 2 [0, 10]) 30 =
      some (RateLimiter.mk 2 [0, 10, 30], 30) ∧
    (0 : Int) < 30 ∧ (30 : Int) ≤ 60 :=
  c6_rate_limit_admission (RateLimiter.mk 2 [0, 10]) 30 0
    (by decide) (by decide) (by decide) (by decide)

/-! ## Claim C10 -/

/-- Claim C10: every completed call to `acquire` appends exactly one
timestamp to the window, and that timestamp is the time captured at entry
(`now`), not the time of admission: the new window is the pruned old window
with `now` appended (so its last entry is `now`), and whenever a wait `w`
occurred (`w ≠ 0`) the recorded time `now` strictly predates the moment of
admission `now + w`. -/
theorem c10_acquire_records_entry_time (rl rl2 : RateLimiter) (now w : Int)
    (h : rl.acquire now = some (rl2, w)) :
    rl2.calls = rl.calls.filter (fun t => now - t < 60) ++ [now] ∧
    rl2.calls.getLast? = some now ∧
    (w = 0 ∨ now < now + w) := by
  have hcalls : rl2.calls = rl.calls.filter (fun t => now - t < 60) ++ [now] ∧
      (w = 0 ∨ now < now + w) := by
    simp only [RateLimiter.acquire] at h
    split at h
    · rename_i hge
      cases hmin : (rl.calls.filter (fun t => now - t < 60)).min? with
      | none => rw [hmin] at h; simp at h
      | some oldest =>
        rw [hmin] at h
        simp only [Option.some.injEq, Prod.mk.injEq] at h
        obtain ⟨hst, hw⟩ := h
        have hmem : oldest ∈ rl.calls.filter (fun t => now - t < 60) :=
          List.min?_mem min_choice hmin
        have hwin : now - oldest < 60 := by
          have := (List.mem_filter.mp hmem).2
          simpa using this
        constructor
        · rw [← hst]
        · right; omega
    · simp only [Option.some.injEq, Prod.mk.injEq] at h
      obtain ⟨hst, hw⟩ := h
      exact ⟨by rw [← hst], Or.inl hw.symm⟩
  refine ⟨hcalls.1, ?_, hcalls.2⟩
  rw [hcalls.1]
  simp

/-- Claim C10, evaluated: entry at `now = 30` against a full window `[0]`
(budget 1) waits 30 seconds yet records 30, the entry time, which predates
the admission moment 60. -/
theorem c10_witness :
    (RateLimiter.mk 1 [0, 30]).calls =
      List.filter (fun t => (30 : Int) - t < 60) [0] ++ [30] ∧
    (RateLimiter.mk 1 [0, 30]).calls.getLast? = some 30 ∧
    ((30 : Int) = 0 ∨ (30 : Int) < 30 + 30) :=
  c10_acquire_records_entry_time (RateLimiter.mk 1 [0]) (RateLimiter.mk 1 [0, 30])
    30 30 (by decide)

/-! ## Claim C2 -/

/-- Boolean success test for an `Except` outcome. -/
def exOk {α : Type} : Except Unit α → Bool
  | Except.ok _ => true
  | Except.error _ => false

/-- The body of `get_list_members` never raises: every remote outcome,
including an exception, comes back as a normal `Except.ok` return because
the internal `try/except Exception` turns exceptions into `return []`. -/
lemma get_list_members_attempt_ok (r : Except Unit (Option (List (Option String)))) :
    ∃ v, get_list_members_attempt r = Except.ok v := by
  cases r with
  | error e => exact ⟨[], rfl⟩
  | ok o =>
    cases o with
    | none => exact ⟨[], rfl⟩
    | some items =>
      by_cases h : items.isEmpty = true
      · exact ⟨[], by simp [get_list_members_attempt, h]⟩
      · exact ⟨items.filterMap id, by simp [get_list_members_attempt, h]⟩

/-- A retried body that returns normally on its first attempt stops the
retry loop at attempt 1 with no waits. -/
lemma retryLoop_first_ok {α : Type} (wait : Nat → Nat) (body : Nat → Except Unit α)
    (attempt fuel : Nat) (v : α) (hv : body attempt = Except.ok v) :
    retryLoop wait body attempt (fuel + 1) = (Except.ok v, attempt, []) := by
  simp [retryLoop, hv]

/-- Claim C2 counterexample: against a remote endpoint that raises on every
call, `get_list_members` performs exactly one attempt, sleeps no backoff
waits and returns `[]` as a normal value — the claimed retry (up to 3
attempts, backoff 4s…10s, on any exception from the remote call) never
triggers.  The same decorator on `fetch_posts`, whose body has no internal
handler, does retry: 3 attempts and backoff waits `[4, 4]` before the
exception propagates. -/
theorem c2_counterexample :
    (get_list_members (fun _ => Except.error ())).1 = Except.ok [] ∧
    (get_list_members (fun _ => Except.error ())).2.1 = 1 ∧
    (get_list_members (fun _ => Except.error ())).2.2 = [] ∧
    (fetch_posts (fun _ => Except.error ())).1 = Except.error () ∧
    (fetch_posts (fun _ => Except.error ())).2.1 = 3 ∧
    (fetch_posts (fun _ => Except.error ())).2.2 = [4, 4] :=
  ⟨rfl, rfl, rfl, rfl, rfl, rfl⟩

/-- Claim C2 as amended: `get_list_members` carries the same retry decorator
as `fetch_posts` (stop after 3 attempts, exponential wait clamped to
[4s, 10s]), but its internal `try/except Exception` catches every exception
from the remote call and returns `[]`, so the retry policy never triggers
for remote-call failures: whatever the remote does, the membership
resolution makes exactly one attempt, sleeps no backoff waits and returns
normally.  Under the same decorator, feed fetching (no internal handler)
does retry on any exception: a remote that always raises costs 3 attempts
with waits `[4, 4]`. -/
theorem c2_membership_swallows_exceptions
    (remote : Nat → Except Unit (Option (List (Option String)))) :
    (get_list_members remote).2.1 = 1 ∧
    (get_list_members remote).2.2 = [] ∧
    exOk (get_list_members remote).1 = true ∧
    (fetch_posts (fun _ => Except.error ())).2.1 = 3 ∧
    (fetch_posts (fun _ => Except.error ())).2.2 = [4, 4] := by
  obtain ⟨v, hv⟩ := get_list_members_attempt_ok (remote 1)
  have hrun : get_list_members remote = (Except.ok v, 1, []) := by
    unfold get_list_members runRetry
    exact retryLoop_first_ok tenacityWait
      (fun n => get_list_members_attempt (remote n)) 1 2 v hv
  rw [hrun]
  exact ⟨rfl, rfl, rfl, rfl, rfl⟩

/-- Claim C2's amended theorem, evaluated at a remote stub that raises
every time: one attempt, no waits, a normal `.ok` result. -/
theorem c2_witness :
    (get_list_members (fun _ => Except.error ())).2.1 = 1 ∧
    (get_list_members (fun _ => Except.error ())).2.2 = [] ∧
    exOk (get_list_members (fun _ => Except.error ())).1 = true ∧
    (fetch_posts (fun _ => Except.error ())).2.1 = 3 ∧
    (fetch_posts (fun _ => Except.error ())).2.2 = [4, 4] :=
  c2_membership_swallows_exceptions (fun _ => Except.error ())

/-! ## Claim C1 -/

/-- With delivery that always succeeds the post loop never aborts, and its
sent list extends the accumulator it started from. -/
lemma processLoop_true_no_abort (ct thr : Int) :
    ∀ (posts : List Post) (newest : Option Int) (sent : List Post),
      ∃ s n, processLoop ct thr (fun _ => true) posts newest sent = LoopResult.ok s n ∧
        ∃ r, s = sent ++ r := by
  intro posts
  induction posts with
  | nil =>
    intro newest sent
    exact ⟨sent, newest, rfl, [], (List.append_nil sent).symm⟩
  | cons p rest ih =>
    intro newest sent
    rw [processLoop]
    by_cases h1 : isTooOld ct thr p.indexed_at = true
    · rw [if_pos h1]; exact ih newest sent
    · rw [if_neg h1]
      by_cases h2 : dedupSkip newest p.indexed_at = true
      · rw [if_pos h2]; exact ih newest sent
      · rw [if_neg h2]
        simp only [if_pos rfl]
        obtain ⟨s, n, hrun, r, hr⟩ := ih (bumpNewest newest p.indexed_at) (sent ++ [p])
        exact ⟨s, n, hrun, p :: r, by rw [hr, List.append_assoc, List.singleton_append]⟩

/-- Either every post that delivery reaches is sent (the run coincides with
the always-succeeding run), or a delivery failed: the run aborted with a
strict front part of the posts the always-succeeding run would have sent. -/
lemma processLoop_send_compare (ct thr : Int) (send : Post → Bool) :
    ∀ (posts : List Post) (newest : Option Int) (sent : List Post),
      processLoop ct thr send posts newest sent =
        processLoop ct thr (fun _ => true) posts newest sent ∨
      ∃ s p2 r n,
        processLoop ct thr send posts newest sent = LoopResult.aborted s ∧
        processLoop ct thr (fun _ => true) posts newest sent =
          LoopResult.ok (s ++ p2 :: r) n := by
  intro posts
  induction posts with
  | nil => intro newest sent; exact Or.inl rfl
  | cons p rest ih =>
    intro newest sent
    rw [processLoop, processLoop]
    by_cases h1 : isTooOld ct thr p.indexed_at = true
    · rw [if_pos h1, if_pos h1]; exact ih newest sent
    · rw [if_neg h1, if_neg h1]
      by_cases h2 : dedupSkip newest p.indexed_at = true
      · rw [if_pos h2, if_pos h2]; exact ih newest sent
      · rw [if_neg h2, if_neg h2]
        simp only [if_pos rfl]
        by_cases hs : send p = true
        · rw [if_pos hs]; exact ih (bumpNewest newest p.indexed_at) (sent ++ [p])
        · rw [if_neg hs]
          obtain ⟨s2, n2, hrun, r, hr⟩ :=
            processLoop_true_no_abort ct thr rest (bumpNewest newest p.indexed_at) (sent ++ [p])
          refine Or.inr ⟨sent, p, r, n2, rfl, ?_⟩
          simp only [if_true]
          rw [hrun, hr, List.append_assoc, List.singleton_append]

/-- Claim C1 counterexample: feed (newest first) `[p2, p1]`, fresh
watermark, both posts fresh and in age; delivery succeeds for `p1`
(timestamp 10) and raises for `p2` (timestamp 20).  The code forwards `p1`,
then the exception aborts the per-handle body before the commit on main.py
line 284: no watermark is written at all — in particular not `some 10`,
the advance covering the delivered post that the claim requires under
either of its admissible policies.  `p1` will be re-delivered next sweep. -/
theorem c1_counterexample :
    (handleRun 100 1000 (fun p => decide (p.indexed_at ≤ 10))
        (Except.ok [Post.mk "p2" 20, Post.mk "p1" 10]) none).1 = [Post.mk "p1" 10] ∧
    (handleRun 100 1000 (fun p => decide (p.indexed_at ≤ 10))
        (Except.ok [Post.mk "p2" 20, Post.mk "p1" 10]) none).2 ≠ some 10 ∧
    (handleRun 100 1000 (fun p => decide (p.indexed_at ≤ 10))
        (Except.ok [Post.mk "p2" 20, Post.mk "p1" 10]) none).2 = none :=
  ⟨rfl, by decide, rfl⟩

/-- Claim C1 as amended: if delivery of one post fails, the per-handle
exception handler logs it, but the remaining eligible posts for that handle
are NOT attempted and NO watermark is committed for that handle this sweep
— the watermark advance for the posts that were already delivered is
dropped (they will be re-forwarded on the next sweep).  Formally: whenever
the posts forwarded under a fallible delivery differ from those the same
feed yields under an always-succeeding delivery, the commit is `none`, the
forwarded posts are a front part of the always-succeeding run's, and at
least one eligible post was left unattempted. -/
theorem c1_partial_delivery_drops_commit (current_time threshold : Int)
    (send : Post → Bool) (fetched : Except Unit (List Post)) (wm : Option Int)
    (hfail : (handleRun current_time threshold send fetched wm).1 ≠
      (handleRun current_time threshold (fun _ => true) fetched wm).1) :
    (handleRun current_time threshold send fetched wm).2 = none ∧
    (handleRun current_time threshold (fun _ => true) fetched wm).1.take
        (handleRun current_time threshold send fetched wm).1.length =
      (handleRun current_time threshold send fetched wm).1 ∧
    (handleRun current_time threshold send fetched wm).1.length <
      (handleRun current_time threshold (fun _ => true) fetched wm).1.length := by
  cases fetched with
  | error e => exact absurd rfl hfail
  | ok feed =>
    cases hemp : feed.isEmpty with
    | true => rw [handleRun, handleRun, if_pos hemp, if_pos hemp] at hfail; exact absurd rfl hfail
    | false =>
      rcases processLoop_send_compare current_time threshold send feed.reverse wm []
        with heq | ⟨s, p2, r, n, hab, hok⟩
      · rw [handleRun, handleRun, if_neg (by simp [hemp]), if_neg (by simp [hemp]), heq]
          at hfail
        exact absurd rfl hfail
      · have h1 : handleRun current_time threshold send (Except.ok feed) wm = (s, none) := by
          rw [handleRun, if_neg (by simp [hemp]), hab]
        have h2 : handleRun current_time threshold (fun _ => true) (Except.ok feed) wm =
            (s ++ p2 :: r, n) := by
          rw [handleRun, if_neg (by simp [hemp]), hok]
        rw [h1, h2]
        refine ⟨rfl, List.take_left s (p2 :: r), ?_⟩
        simp

/-- Claim C1's amended theorem, evaluated at the counterexample input:
delivery of the second post fails, the watermark commit is `none`, the
forwarded post `p1` is a strict front part of what full delivery would
have forwarded. -/
theorem c1_witness :
    (handleRun 100 1000 (fun p => decide (p.indexed_at ≤ 10))
        (Except.ok [Post.mk "p2" 20, Post.mk "p1" 10]) none).2 = none ∧
    (handleRun 100 1000 (fun _ => true)
        (Except.ok [Post.mk "p2" 20, Post.mk "p1" 10]) none).1.take
        (handleRun 100 1000 (fun p => decide (p.indexed_at ≤ 10))
          (Except.ok [Post.mk "p2" 20, Post.mk "p1" 10]) none).1.length =
      (handleRun 100 1000 (fun p => decide (p.indexed_at ≤ 10))
        (Except.ok [Post.mk "p2" 20, Post.mk "p1" 10]) none).1 ∧
    (handleRun 100 1000 (fun p => decide (p.indexed_at ≤ 10))
        (Except.ok [Post.mk "p2" 20, Post.mk "p1" 10]) none).1.length <
      (handleRun 100 1000 (fun _ => true)
        (Except.ok [Post.mk "p2" 20, Post.mk "p1" 10]) none).1.length :=
  c1_partial_delivery_drops_commit 100 1000 (fun p => decide (p.indexed_at ≤ 10))
    (Except.ok [Post.mk "p2" 20, Post.mk "p1" 10]) none (by decide)

/-! ## Claim C7 -/

/-- Claim C7: chronological forwarding order.  For a feed delivered
newest-first (`[p3, p2, p1]` with `T1 < T2 < T3`) whose three posts are all
strictly newer than the handle's watermark and within the age threshold,
and whose deliveries succeed, the posts are forwarded oldest-first
(`p1, p2, p3`) and the committed watermark is the single newest timestamp
`T3`. -/
theorem c7_chronological_order (current_time threshold : Int) (send : Post → Bool)
    (p1 p2 p3 : Post) (wm : Option Int)
    (h12 : p1.indexed_at < p2.indexed_at) (h23 : p2.indexed_at < p3.indexed_at)
    (ha1 : current_time - p1.indexed_at ≤ threshold)
    (ha2 : current_time - p2.indexed_at ≤ threshold)
    (ha3 : current_time - p3.indexed_at ≤ threshold)
    (hwm : wmBelow wm p1.indexed_at = true)
    (hs1 : send p1 = true) (hs2 : send p2 = true) (hs3 : send p3 = true) :
    handleRun current_time threshold send (Except.ok [p3, p2, p1]) wm =
      ([p1, p2, p3], some p3.indexed_at) := by
  have e1 := isTooOld_eq_false ha1
  have e2 := isTooOld_eq_false ha2
  have e3 := isTooOld_eq_false ha3
  have d1 := dedupSkip_of_below hwm
  have b1 := bumpNewest_of_below hwm
  have d2 : dedupSkip (some p1.indexed_at) p2.indexed_at = false := by
    simp only [dedupSkip, decide_eq_false_iff_not]; omega
  have b2 : bumpNewest (some p1.indexed_at) p2.indexed_at = some p2.indexed_at := by
    simp only [bumpNewest, if_pos h12]
  have d3 : dedupSkip (some p2.indexed_at) p3.indexed_at = false := by
    simp only [dedupSkip, decide_eq_false_iff_not]; omega
  have b3 : bumpNewest (some p2.indexed_at) p3.indexed_at = some p3.indexed_at := by
    simp only [bumpNewest, if_pos h23]
  have hrev : ([p3, p2, p1] : List Post).reverse = [p1, p2, p3] := rfl
  rw [handleRun, if_neg (by simp), hrev]
  rw [processLoop, if_neg (by simp [e1]), if_neg (by simp [d1]), b1, if_pos hs1]
  rw [processLoop, if_neg (by simp [e2]), if_neg (by simp [d2]), b2, if_pos hs2]
  rw [processLoop, if_neg (by simp [e3]), if_neg (by simp [d3]), b3, if_pos hs3]
  rfl

/-- Claim C7, evaluated: feed `[30, 20, 10]` newest-first over watermark 0,
forwarded `[10, 20, 30]`, watermark committed at 30. -/
theorem c7_witness :
    handleRun 100 1000 (fun _ => true)
      (Except.ok [Post.mk "c" 30, Post.mk "b" 20, Post.mk "a" 10]) (some 0) =
      ([Post.mk "a" 10, Post.mk "b" 20, Post.mk "c" 30], some 30) :=
  c7_chronological_order 100 1000 (fun _ => true)
    (Post.mk "a" 10) (Post.mk "b" 20) (Post.mk "c" 30) (some 0)
    (by decide) (by decide) (by decide) (by decide) (by decide) (by decide)
    rfl rfl rfl

/-! ## Claim C8 -/

/-- Claim C8: per-account failure isolation.  In a sweep over three distinct
handles `[a, b, c]` where fetching `b` fails (the exception from
`fetch_posts` after retry exhaustion), handle `b` is skipped — its
watermark is untouched — while `a` and `c` are still processed from their
own watermarks exactly as if `b` had not failed: each ends at its own
processing's commit (`commitOr`), and the forwarded posts are exactly those
of `a` followed by those of `c`.  The sweep itself is a total function:
the failure is never fatal. -/
theorem c8_failure_isolation (current_time threshold : Int)
    (send : String → Post → Bool) (fetch : String → Except Unit (List Post))
    (wm : String → Option Int) (a b c : String)
    (hab : a ≠ b) (hac : a ≠ c) (hbc : b ≠ c)
    (hb : fetch b = Except.error ()) :
    (sweepRun current_time threshold send fetch [a, b, c] wm).2 b = wm b ∧
    (sweepRun current_time threshold send fetch [a, b, c] wm).2 a =
      commitOr (wm a) (handleRun current_time threshold (send a) (fetch a) (wm a)).2 ∧
    (sweepRun current_time threshold send fetch [a, b, c] wm).2 c =
      commitOr (wm c) (handleRun current_time threshold (send c) (fetch c) (wm c)).2 ∧
    (sweepRun current_time threshold send fetch [a, b, c] wm).1 =
      (handleRun current_time threshold (send a) (fetch a) (wm a)).1.map (fun p => (a, p)) ++
        (handleRun current_time threshold (send c) (fetch c) (wm c)).1.map
          (fun p => (c, p)) := by
  have hba : b ≠ a := Ne.symm hab
  have hca : c ≠ a := Ne.symm hac
  have hcb : c ≠ b := Ne.symm hbc
  rw [sweepRun_cons]
  set ra := handleRun current_time threshold (send a) (fetch a) (wm a) with hra
  set wm1 := updateWM wm a ra.2 with hwm1
  have hwm1b : wm1 b = wm b := updateWM_ne wm ra.2 hba
  have hwm1c : wm1 c = wm c := updateWM_ne wm ra.2 hca
  rw [sweepRun_cons]
  rw [hwm1b, hb, handleRun_error, updateWM_none]
  rw [sweepRun_cons]
  rw [hwm1c]
  set rc := handleRun current_time threshold (send c) (fetch c) (wm c) with hrc
  rw [sweepRun_nil]
  refine ⟨?_, ?_, ?_, ?_⟩
  · show updateWM wm1 c rc.2 b = wm b
    rw [updateWM_ne wm1 rc.2 hbc, hwm1b]
  · show updateWM wm1 c rc.2 a = commitOr (wm a) ra.2
    rw [updateWM_ne wm1 rc.2 hac, hwm1, updateWM_self]
  · show updateWM wm1 c rc.2 c = commitOr (wm c) rc.2
    rw [updateWM_self, hwm1c]
  · show List.map (fun p => (a, p)) ra.1 ++
        (List.map (fun p => (b, p)) [] ++ (List.map (fun p => (c, p)) rc.1 ++ [])) =
      List.map (fun p => (a, p)) ra.1 ++ List.map (fun p => (c, p)) rc.1
    simp

/-- A concrete fetch table for the isolation scenario: "a" and "c" resolve,
"b" raises. -/
def fetchABC : String → Except Unit (List Post) := fun h =>
  if h = "a" then Except.ok [Post.mk "pa" 50]
  else if h = "c" then Except.ok [Post.mk "pc" 60]
  else Except.error ()

/-- Claim C8, evaluated: with `fetchABC`, handle "b" keeps its (absent)
watermark while "a" and "c" advance to 50 and 60 and their posts are the
only forwards. -/
theorem c8_witness :
    (sweepRun 100 1000 (fun _ _ => true) fetchABC ["a", "b", "c"]
        (fun _ => none)).2 "b" = (fun _ => (none : Option Int)) "b" ∧
    (sweepRun 100 1000 (fun _ _ => true) fetchABC ["a", "b", "c"]
        (fun _ => none)).2 "a" =
      commitOr ((fun _ => (none : Option Int)) "a")
        (handleRun 100 1000 ((fun _ _ => true) "a") (fetchABC "a")
          ((fun _ => (none : Option Int)) "a")).2 ∧
    (sweepRun 100 1000 (fun _ _ => true) fetchABC ["a", "b", "c"]
        (fun _ => none)).2 "c" =
      commitOr ((fun _ => (none : Option Int)) "c")
        (handleRun 100 1000 ((fun _ _ => true) "c") (fetchABC "c")
          ((fun _ => (none : Option Int)) "c")).2 ∧
    (sweepRun 100 1000 (fun _ _ => true) fetchABC ["a", "b", "c"]
        (fun _ => none)).1 =
      (handleRun 100 1000 ((fun _ _ => true) "a") (fetchABC "a")
          ((fun _ => (none : Option Int)) "a")).1.map (fun p => ("a", p)) ++
        (handleRun 100 1000 ((fun _ _ => true) "c") (fetchABC "c")
            ((fun _ => (none : Option Int)) "c")).1.map (fun p => ("c", p)) :=
  c8_failure_isolation 100 1000 (fun _ _ => true) fetchABC (fun _ => none)
    "a" "b" "c" (by decide) (by decide) (by decide) rfl

/-! ## Claim C9 -/

/-- Over a strictly ascending (oldest-first) post list whose timestamps all
lie above the running `newest_time`, the always-delivering loop completes
and sends exactly the posts that pass the age test, in order. -/
lemma processLoop_fresh_filter (ct thr : Int) :
    ∀ (posts : List Post) (newest : Option Int) (sent : List Post),
      List.Pairwise (fun q r => q.indexed_at < r.indexed_at) posts →
      (∀ p ∈ posts, wmBelow newest p.indexed_at = true) →
      ∃ n, processLoop ct thr (fun _ => true) posts newest sent =
        LoopResult.ok
          (sent ++ posts.filter (fun p => !(isTooOld ct thr p.indexed_at))) n := by
  intro posts
  induction posts with
  | nil =>
    intro newest sent _ _
    exact ⟨newest, by simp [processLoop]⟩
  | cons p rest ih =>
    intro newest sent hpw hbelow
    obtain ⟨hp, hrest⟩ := List.pairwise_cons.mp hpw
    rw [processLoop]
    by_cases hOld : isTooOld ct thr p.indexed_at = true
    · rw [if_pos hOld]
      obtain ⟨n, hn⟩ := ih newest sent hrest
        (fun q hq => hbelow q (List.mem_cons_of_mem p hq))
      refine ⟨n, ?_⟩
      rw [hn, List.filter_cons_of_neg (by simp [hOld])]
    · have hOld' : isTooOld ct thr p.indexed_at = false := by simpa using hOld
      rw [if_neg hOld]
      have hbp : wmBelow newest p.indexed_at = true :=
        hbelow p (List.mem_cons_self p rest)
      rw [if_neg (by simp [dedupSkip_of_below hbp]), bumpNewest_of_below hbp,
        if_pos rfl]
      obtain ⟨n, hn⟩ := ih (some p.indexed_at) (sent ++ [p]) hrest
        (fun q hq => by
          simp only [wmBelow, decide_eq_true_eq]
          exact hp q hq)
      refine ⟨n, ?_⟩
      rw [hn, List.filter_cons_of_pos (by simp [hOld']), List.append_assoc,
        List.singleton_append]

/-- Claim C9: `load_history` is total and never raises — a missing file, an
unreadable file, and unparsable content all yield the empty mapping — and
with that empty mapping every handle's watermark is absent, so on the next
sweep every post within the age window of a (newest-first) feed is treated
as new: the forwarded posts are exactly the age-qualifying posts, in
chronological order. -/
theorem c9_load_history_total (parse : String → Option (String → Option Int))
    (s hkey : String) (current_time threshold : Int) (feed : List Post)
    (hbad : parse s = none)
    (hdesc : List.Pairwise (fun q r => r.indexed_at < q.indexed_at) feed) :
    load_history parse HistoryFile.missing = emptyHistory ∧
    load_history parse HistoryFile.unreadable = emptyHistory ∧
    load_history parse (HistoryFile.content s) = emptyHistory ∧
    (handleRun current_time threshold (fun _ => true) (Except.ok feed)
        (load_history parse HistoryFile.missing hkey)).1 =
      feed.reverse.filter
        (fun p => !(isTooOld current_time threshold p.indexed_at)) := by
  refine ⟨rfl, rfl, by simp [load_history, hbad], ?_⟩
  cases feed with
  | nil => rfl
  | cons q qs =>
    have hasc : List.Pairwise (fun a b => a.indexed_at < b.indexed_at)
        (q :: qs).reverse := List.pairwise_reverse.mpr hdesc
    obtain ⟨n, hn⟩ := processLoop_fresh_filter current_time threshold
      (q :: qs).reverse none [] hasc (fun p _ => rfl)
    rw [handleRun, if_neg (by simp)]
    show (match processLoop current_time threshold (fun _ => true)
        (q :: qs).reverse none [] with
      | LoopResult.ok sent newest => (sent, newest)
      | LoopResult.aborted sent => (sent, none)).1 = _
    rw [hn]
    simp

/-- The always-failing JSON parser stub. -/
def parseNone : String → Option (String → Option Int) := fun _ => none

/-- Claim C9, evaluated: with a parser that rejects everything the load
yields the empty mapping, and a sweep over feed `[90, 20]` (newest-first)
at `current_time = 100`, threshold 60, forwards exactly the in-age post
(timestamp 90; the post at 20 has age 80 and is dropped). -/
theorem c9_witness :
    load_history parseNone HistoryFile.missing = emptyHistory ∧
    load_history parseNone HistoryFile.unreadable = emptyHistory ∧
    load_history parseNone (HistoryFile.content "not json") = emptyHistory ∧
    (handleRun 100 60 (fun _ => true)
        (Except.ok [Post.mk "b" 90, Post.mk "a" 20])
        (load_history parseNone HistoryFile.missing "alice")).1 =
      ([Post.mk "b" 90, Post.mk "a" 20] : List Post).reverse.filter
        (fun p => !(isTooOld 100 60 p.indexed_at)) :=
  c9_load_history_total parseNone "not json" "alice" 100 60
    [Post.mk "b" 90, Post.mk "a" 20] rfl (by decide)

end BskyFeed
